import Mathlib

/-!
# Verification of the gitflow version-resolution engine

A shallow embedding of `src/lib.rs` of the `gitflow-rs` crate.  Rust strings
are modelled as `List Char`; Rust `u8`/`u64`/`usize` values are modelled as
`Nat` with explicit range checks exactly where the source performs them
(`try_into`, `u8::from_str`, the `semver` crate's `u64` accumulation).
Fallible Rust functions returning `Result` are modelled with `Except`;
functions that can also `panic!` (via `unwrap` / `unwrap_or_else`) are
modelled with the three-outcome type `POut`.
-/

deriving instance DecidableEq for Except

namespace Gitflow

/-! ## Data model (structs and enums from `src/lib.rs`) -/

/-- `SemverBase { major, minor, patch }`, fields are Rust `u8` values.
Every constructor call in the embedded code checks the 0–255 range first. -/
structure SemverBase where
  major : Nat
  minor : Nat
  patch : Nat
deriving DecidableEq

/-- `SemverRC { base, rc }`, `rc` a Rust `u8`. -/
structure SemverRC where
  base : SemverBase
  rc : Nat
deriving DecidableEq

/-- The four-variant `VersionInfo` enum. -/
inductive VersionInfo where
  | Production : SemverBase → VersionInfo
  | Alpha : SemverRC → VersionInfo
  | Development : VersionInfo
  | Local : VersionInfo
deriving DecidableEq

/-- `GitflowInfo` result record (`build_number` is a `u64`, modelled as `Nat`). -/
structure GitflowInfo where
  branch_name : String
  version : VersionInfo
  commit_hash : String
  build_number : Nat
deriving DecidableEq

/-- Outcome of a Rust computation that can return `Ok`, return `Err`
(boxed error, modelled by its message) or `panic!`. -/
inductive POut (α : Type) where
  | ok : α → POut α
  | err : String → POut α
  | panicked : String → POut α
deriving DecidableEq

/-- True exactly on the `err` outcome. -/
def POut.isErr {α : Type} : POut α → Bool
  | .err _ => true
  | _ => false

/-- True exactly on the `panicked` outcome. -/
def POut.isPanicked {α : Type} : POut α → Bool
  | .panicked _ => true
  | _ => false

/-! ## Decimal rendering of numbers

Models Rust's `Display` for unsigned integers (used by `write!`/`format!`
in the `Display` impls at `src/lib.rs:75-89`): standard decimal digits,
no sign, no leading zeros, and `0` rendered as `"0"`. -/

/-- The character for a single decimal digit value. -/
def digitChar (d : Nat) : Char := Char.ofNat (48 + d)

/-- The numeric value of a decimal digit character. -/
def dval (c : Char) : Nat := c.toNat - 48

/-- Value of a big-endian decimal digit string (models the digit-by-digit
accumulation `value = value * 10 + digit` done by `semver`'s parser and by
Rust's `FromStr` for integers). -/
def digitsToNat (cs : List Char) : Nat := cs.foldl (fun a c => a * 10 + dval c) 0

/-- Fuel-driven digit emitter: peels decimal digits from the low end onto
an accumulator.  The fuel argument makes the recursion structural; any fuel
at least the number being printed is enough. -/
def natReprAux : Nat → Nat → List Char → List Char
  | 0, _, acc => acc
  | _ + 1, 0, acc => acc
  | fuel + 1, n + 1, acc =>
      natReprAux fuel ((n + 1) / 10) (digitChar ((n + 1) % 10) :: acc)

/-- Decimal rendering of a `Nat` (model of Rust's `{}` formatting of an
unsigned integer). -/
def natRepr (n : Nat) : List Char := if n = 0 then ['0'] else natReprAux n n []

/-! ## Character classes used by the `semver` crate's grammar -/

/-- Characters allowed inside a prerelease/build identifier segment:
ASCII letters, ASCII digits, and hyphen. -/
def identChar (c : Char) : Bool :=
  c.isDigit || c.isUpper || c.isLower || c = '-'

/-- Characters that may appear in the raw prerelease/build text:
identifier characters plus the `.` separator. -/
def preDotChar (c : Char) : Bool := identChar c || c = '.'

/-- Characters excluded from a "plain version component" in the failure
analysis: the separators and markers `.`/`-`/`+` of the semver grammar. -/
def okCompChar (c : Char) : Bool := c ≠ '.' && c ≠ '-' && c ≠ '+'

/-- A digit string with a redundant leading zero (`0` followed by at least
one more digit), which the `semver` crate rejects in numeric positions. -/
def leadingZeroB : List Char → Bool
  | c :: _ :: _ => c = '0'
  | _ => false

/-- The `semver` crate's leading-zero violation for a *prerelease* segment:
the segment is entirely numeric, and has a redundant leading zero. -/
def preLeadingZero (seg : List Char) : Bool :=
  seg.all Char.isDigit && leadingZeroB seg

/-! ## Model of `semver::Version::parse` (the external `semver = "1"` crate)

The crate parses `MAJOR.MINOR.PATCH[-PRE][+BUILD]`:
numeric components accumulate into a `u64` (overflow is an error) and must
not have leading zeros; `PRE`/`BUILD` are non-empty dot-separated segments
over `[0-9A-Za-z-]`, with all-numeric prerelease segments subject to the
leading-zero rule; any leftover text is an error. -/

/-- Parse one numeric version component (the crate's `numeric_identifier`):
a non-empty run of ASCII digits with no leading zero, whose value fits in a
`u64`.  Returns the value and the unconsumed remainder. -/
def parseNum (cs : List Char) : Except String (Nat × List Char) :=
  let ds := cs.takeWhile Char.isDigit
  if ds.isEmpty then .error "unexpected character while parsing number"
  else if leadingZeroB ds then .error "invalid leading zero"
  else if digitsToNat ds < 2 ^ 64 then .ok (digitsToNat ds, cs.dropWhile Char.isDigit)
  else .error "value exceeds u64 range"

/-- Expect a literal `.` separator. -/
def parseDotNum (cs : List Char) : Except String (Nat × List Char) :=
  match cs with
  | '.' :: rest => parseNum rest
  | _ => .error "expected dot"

/-- Split a character list at every occurrence of `sep` (model of Rust's
`str::split`): always returns at least one (possibly empty) piece. -/
def splitOnChar (sep : Char) : List Char → List (List Char)
  | [] => [[]]
  | c :: rest =>
      let r := splitOnChar sep rest
      if c = sep then [] :: r
      else
        match r with
        | [] => [[c]]
        | s :: ss => (c :: s) :: ss

/-- Every segment of a prerelease/build text is non-empty, and in
prerelease position all-numeric segments have no leading zero. -/
def validSegs (isPre : Bool) (segs : List (List Char)) : Bool :=
  segs.all fun seg => !seg.isEmpty && !(isPre && preLeadingZero seg)

/-- Parse the raw prerelease or build text (the crate's `identifier`):
consume the maximal run of identifier/dot characters and validate its
dot-separated segments.  The crate walks the same run character by
character, erroring at the first empty or leading-zero segment; both
formulations fail on exactly the same inputs. -/
def parseIdentText (isPre : Bool) (cs : List Char) : Except String (List Char × List Char) :=
  let txt := cs.takeWhile preDotChar
  if validSegs isPre (splitOnChar '.' txt) then .ok (txt, cs.dropWhile preDotChar)
  else .error "empty or leading-zero identifier segment"

/-- Optional `-PRE` suffix. -/
def parsePreOpt (cs : List Char) : Except String (List Char × List Char) :=
  match cs with
  | '-' :: rest => parseIdentText true rest
  | _ => .ok ([], cs)

/-- Optional `+BUILD` suffix. -/
def parseBuildOpt (cs : List Char) : Except String (List Char × List Char) :=
  match cs with
  | '+' :: rest => parseIdentText false rest
  | _ => .ok ([], cs)

/-- The structured result of `semver::Version::parse`: the three numeric
components plus the raw prerelease and build texts (the crate stores both
as strings; empty means absent). -/
structure RawVersion where
  major : Nat
  minor : Nat
  patch : Nat
  pre : List Char
  build : List Char
deriving DecidableEq

/-- Model of `semver::Version::parse` on the text after the leading `v`
has been stripped by `parse_semver`. -/
def semverParse (cs : List Char) : Except String RawVersion :=
  match parseNum cs with
  | .error e => .error e
  | .ok (major, cs1) =>
  match parseDotNum cs1 with
  | .error e => .error e
  | .ok (minor, cs3) =>
  match parseDotNum cs3 with
  | .error e => .error e
  | .ok (patch, cs5) =>
  match parsePreOpt cs5 with
  | .error e => .error e
  | .ok (pre, cs6) =>
  match parseBuildOpt cs6 with
  | .error e => .error e
  | .ok (build, cs7) =>
      if cs7.isEmpty then .ok ⟨major, minor, patch, pre, build⟩
      else .error "unexpected character after version"

/-! ## `parse_semver` (`src/lib.rs:121-151`) -/

/-- Strip the optional leading `+` sign accepted by Rust's unsigned-integer
`FromStr`. -/
def stripPlus : List Char → List Char
  | '+' :: rest => rest
  | cs => cs

/-- Model of Rust's `str::parse::<u8>()`: optional leading `+`, then one or
more ASCII digits, value at most 255.  `none` models the `Err` case. -/
def rustParseU8 (cs : List Char) : Option Nat :=
  if stripPlus cs ≠ [] ∧ (stripPlus cs).all Char.isDigit ∧ digitsToNat (stripPlus cs) ≤ 255
  then some (digitsToNat (stripPlus cs))
  else none

/-- The straight-line continuation of `parse_semver` after
`semver::Version::parse` has succeeded (`src/lib.rs:127-150`): reject a
build suffix, narrow the three components to `u8` via `try_into`, and
interpret the prerelease text.  The `parts.next().unwrap()` on the first
piece of `pre.split('.')` is modelled by the `panicked` arm. -/
def classify_version (version : RawVersion) : POut VersionInfo :=
  if !version.build.isEmpty then .err "Semver must not contain a build identifier"
  else if 255 < version.major then .err "out of range integral type conversion attempted"
  else if 255 < version.minor then .err "out of range integral type conversion attempted"
  else if 255 < version.patch then .err "out of range integral type conversion attempted"
  else
    let base : SemverBase := ⟨version.major, version.minor, version.patch⟩
    if version.pre.isEmpty then .ok (.Production base)
    else
      match splitOnChar '.' version.pre with
      | [] => .panicked "called Option.unwrap on a None value"
      | first :: parts =>
        match parts with
        | [] => .err "Expected rc.W at end of version"
        | second :: _ =>
          if first = ['r', 'c'] then
            match rustParseU8 second with
            | some rc => .ok (.Alpha ⟨base, rc⟩)
            | none => .err "invalid digit found in string"
          else .err ("Unsupported prerelease: " ++ String.mk first)

/-- Model of `parse_semver` (`src/lib.rs:121-151`): require the leading
`v`, run the `semver` crate parser on the remainder, then classify. -/
def parse_semver (cs : List Char) : POut VersionInfo :=
  match cs with
  | 'v' :: rest =>
    match semverParse rest with
    | .error e => .err e
    | .ok version => classify_version version
  | _ => .err "Semver must start with a v"

/-! ## Display impls and `VersionInfo` accessors (`src/lib.rs:75-119`) -/

/-- `Display for SemverBase`: `v{major}.{minor}.{patch}`. -/
def displayBase (b : SemverBase) : List Char :=
  'v' :: (natRepr b.major ++ '.' :: (natRepr b.minor ++ '.' :: natRepr b.patch))

/-- `Display for SemverRC`: `v{major}.{minor}.{patch}-rc.{rc}`. -/
def displayRC (r : SemverRC) : List Char :=
  'v' :: (natRepr r.base.major ++ '.' :: (natRepr r.base.minor ++ '.' ::
    (natRepr r.base.patch ++ '-' :: ('r' :: 'c' :: '.' :: natRepr r.rc))))

/-- `VersionInfo::get_semver` (`src/lib.rs:103-110`). -/
def get_semver : VersionInfo → Option (List Char)
  | .Production s => some (displayBase s)
  | .Alpha s => some (displayRC s)
  | .Development => none
  | .Local => none

/-- `VersionInfo::is_production` (`src/lib.rs:112-114`). -/
def is_production : VersionInfo → Bool
  | .Production _ => true
  | _ => false

/-- `VersionInfo::is_alpha` (`src/lib.rs:116-118`). -/
def is_alpha : VersionInfo → Bool
  | .Alpha _ => true
  | _ => false

/-! ## Commit graph and `count_parents` (`src/lib.rs:179-186`) -/

/-- A commit together with its parent commits, as the traversal in
`count_parents` unfolds it (zero parents = root, one = ordinary commit,
two or more = merge). -/
inductive CommitTree where
  | node : List CommitTree → CommitTree

mutual

/-- Model of the nested `fn count_parents` (`src/lib.rs:180-186`):
`let mut count = 0; for commit in commit.parents() { count += count_parents(&commit); } count`. -/
def count_parents : CommitTree → Nat
  | .node parents => count_parents_list parents

/-- The `for` loop of `count_parents`, summing the recursive count over the
parent list. -/
def count_parents_list : List CommitTree → Nat
  | [] => 0
  | c :: cs => count_parents c + count_parents_list cs

end

/-- A strictly linear history of depth `n`: the head commit has a single
parent chain of `n` ancestors and no merges. -/
def linear : Nat → CommitTree
  | 0 => .node []
  | n + 1 => .node [linear n]

/-! ## Repository snapshot and `get_info_from_path` (`src/lib.rs:153-196`)

The git2 data-access layer is modelled as an explicit snapshot value: the
outcomes of `Repository::open`, `repo.head()`, `head.peel_to_commit()` and
`repo.branches(None)`, the head commit's parent graph and hex hash, and the
enumerated branch entries. -/

/-- One entry produced by the branch iterator: whether `is_head()` holds,
and the result of `name()` (`Ok(None)` models a non-UTF-8 branch name). -/
structure BranchItem where
  is_head : Bool
  name : Except String (Option String)

/-- Snapshot of everything `get_info_from_path` reads from git2. -/
structure RepoSnapshot where
  open_result : Except String Unit
  head_result : Except String Unit
  peel_result : Except String Unit
  head_commit : CommitTree
  head_hash : String
  branches_result : Except String Unit
  branches : List (Except String BranchItem)

/-- The `filter_map` at `src/lib.rs:159-167`: drop errored entries, keep
branches whose tip is the head commit. -/
def head_branches (r : RepoSnapshot) : List BranchItem :=
  r.branches.filterMap fun b =>
    match b with
    | .error _ => none
    | .ok br => if br.is_head then some br else none

/-- The tail of `get_info_from_path` after the single head branch has been
selected (`src/lib.rs:176-195`): read the branch name (the `.unwrap()` on a
non-UTF-8 name is a panic), count parents, and parse the hardcoded
`let output = "";` — `unwrap_or_else(|_| panic!(...))` turns its `Err`
into a panic. -/
def finish_resolution (r : RepoSnapshot) (branch : BranchItem) : POut GitflowInfo :=
  match branch.name with
  | .error e => .err e
  | .ok none => .panicked "called Option.unwrap on a None value"
  | .ok (some branch_name) =>
    let build_number := count_parents r.head_commit
    let output : List Char := []
    match parse_semver output with
    | .ok v => .ok ⟨branch_name, v, r.head_hash, build_number⟩
    | .err _ => .panicked ("failed to parse semver: " ++ String.mk output)
    | .panicked p => .panicked p

/-- Model of `get_info_from_path` (`src/lib.rs:153-196`). -/
def get_info_from_path (r : RepoSnapshot) : POut GitflowInfo :=
  match r.open_result with
  | .error e => .err e
  | .ok _ =>
  match r.head_result with
  | .error e => .err e
  | .ok _ =>
  match r.peel_result with
  | .error e => .err e
  | .ok _ =>
  match r.branches_result with
  | .error e => .err e
  | .ok _ =>
    if (head_branches r).length > 1 then .err "Commit on too many branches!"
    else if (head_branches r).isEmpty then .err "Commit {commit_hash} on no branch"
    else
      match head_branches r with
      | [] => .panicked "called Option.unwrap on a None value"
      | branch :: _ => finish_resolution r branch

/-! ## Auxiliary definitions used only to state properties -/

/-- Join identifier segments with `.` separators (inverse of splitting a
prerelease label on `.`). -/
def joinDots : List (List Char) → List Char
  | [] => []
  | [s] => s
  | s :: rest => s ++ '.' :: joinDots rest

/-- The text appended after `rc.{W}` when extra prerelease segments are
present: empty for no extras, otherwise `.seg1.seg2...`. -/
def extraTail (extra : List (List Char)) : List Char :=
  if extra.isEmpty then [] else '.' :: joinDots extra

/-- A prerelease identifier segment acceptable to the `semver` grammar:
non-empty, over `[0-9A-Za-z-]`, and (if all-numeric) with no leading zero. -/
def validPreSeg (seg : List Char) : Bool :=
  !seg.isEmpty && seg.all identChar && !preLeadingZero seg

/-- The prerelease text `rc.{W}` followed by the optional extra segments. -/
def rcText (W : Nat) (extra : List (List Char)) : List Char :=
  'r' :: 'c' :: '.' :: (natRepr W ++ extraTail extra)

/-- A concrete healthy repository snapshot: open/head/peel succeed and
exactly one branch (`feature-x`, a feature branch) tips at the head commit,
which sits on a linear two-commit history. -/
def featureSnapshot : RepoSnapshot :=
  ⟨.ok (), .ok (), .ok (), linear 2, "1f2e3d4c", .ok (),
    [.ok ⟨true, .ok (some "feature-x")⟩]⟩

/-- A concrete snapshot whose unique head branch is named `develop`. -/
def developSnapshot : RepoSnapshot :=
  ⟨.ok (), .ok (), .ok (), linear 4, "0a1b2c3d", .ok (),
    [.ok ⟨true, .ok (some "develop")⟩, .ok ⟨false, .ok (some "master")⟩]⟩

/-- The single head branch of `mainSnapshot`. -/
def mainBranch : BranchItem := ⟨true, .ok (some "main")⟩

/-- A concrete snapshot whose unique head branch is named `main`. -/
def mainSnapshot : RepoSnapshot :=
  ⟨.ok (), .ok (), .ok (), linear 1, "77aa88bb", .ok (),
    [.ok ⟨false, .ok (some "develop")⟩, .ok mainBranch]⟩

/-- A concrete snapshot where no branch tips at the head commit. -/
def noBranchSnapshot : RepoSnapshot :=
  ⟨.ok (), .ok (), .ok (), linear 1, "55ee66ff", .ok (),
    [.ok ⟨false, .ok (some "develop")⟩]⟩

/-- A concrete snapshot where two branches tip at the head commit. -/
def ambiguousSnapshot : RepoSnapshot :=
  ⟨.ok (), .ok (), .ok (), linear 1, "99cc00dd", .ok (),
    [.ok ⟨true, .ok (some "release-a")⟩, .ok ⟨true, .ok (some "release-b")⟩]⟩

end Gitflow

namespace Gitflow

/-! # Theorems

## Basic character and digit facts -/

theorem digitChar_isDigit {d : Nat} (h : d < 10) : (digitChar d).isDigit = true := by
  interval_cases d <;> decide

theorem dval_digitChar {d : Nat} (h : d < 10) : dval (digitChar d) = d := by
  interval_cases d <;> decide

theorem digitChar_ne_zero {d : Nat} (h1 : 0 < d) (h2 : d < 10) : digitChar d ≠ '0' := by
  interval_cases d <;> decide

theorem isDigit_ne_dot {c : Char} (h : c.isDigit = true) : c ≠ '.' := by
  intro he; subst he; exact absurd h (by decide)

theorem isDigit_ne_dash {c : Char} (h : c.isDigit = true) : c ≠ '-' := by
  intro he; subst he; exact absurd h (by decide)

theorem isDigit_ne_plus {c : Char} (h : c.isDigit = true) : c ≠ '+' := by
  intro he; subst he; exact absurd h (by decide)

theorem isDigit_identChar {c : Char} (h : c.isDigit = true) : identChar c = true := by
  simp [identChar, h]

theorem identChar_preDotChar {c : Char} (h : identChar c = true) : preDotChar c = true := by
  simp [preDotChar, h]

theorem identChar_ne_dot {c : Char} (h : identChar c = true) : c ≠ '.' := by
  intro he; subst he; exact absurd h (by decide)

theorem dot_preDotChar : preDotChar '.' = true := by decide

/-! ## Decimal rendering: correctness of `natRepr` -/

theorem natReprAux_eq : ∀ fuel n acc, n ≤ fuel →
    natReprAux fuel n acc = natReprAux n n [] ++ acc := by
  intro fuel
  induction fuel using Nat.strong_induction_on with
  | _ fuel ih =>
    intro n acc h
    cases fuel with
    | zero =>
      have hn : n = 0 := Nat.le_zero.mp h
      subst hn; simp [natReprAux]
    | succ f =>
      cases n with
      | zero => simp [natReprAux]
      | succ m =>
        have hq : (m + 1) / 10 < m + 1 := Nat.div_lt_self (Nat.succ_pos m) (by norm_num)
        have h1 : (m + 1) / 10 ≤ f := by omega
        have h2 : (m + 1) / 10 ≤ m := by omega
        show natReprAux f ((m + 1) / 10) (digitChar ((m + 1) % 10) :: acc) = _
        rw [ih f (by omega) _ _ h1]
        conv_rhs =>
          rw [show natReprAux (m + 1) (m + 1) [] =
            natReprAux m ((m + 1) / 10) [digitChar ((m + 1) % 10)] from rfl]
        rw [ih m (by omega) _ _ h2]
        simp

/-- The digit string of `n` (empty for `n = 0`). -/
theorem natDigits_succ (m : Nat) :
    natReprAux (m + 1) (m + 1) [] =
      natReprAux ((m + 1) / 10) ((m + 1) / 10) [] ++ [digitChar ((m + 1) % 10)] := by
  have hq : (m + 1) / 10 < m + 1 := Nat.div_lt_self (Nat.succ_pos m) (by norm_num)
  show natReprAux m ((m + 1) / 10) [digitChar ((m + 1) % 10)] = _
  exact natReprAux_eq m ((m + 1) / 10) _ (by omega)

theorem natDigits_all_digits : ∀ n, ∀ c ∈ natReprAux n n [], c.isDigit = true := by
  intro n
  induction n using Nat.strong_induction_on with
  | _ n ih =>
    cases n with
    | zero => intro c hc; simp [natReprAux] at hc
    | succ m =>
      intro c hc
      rw [natDigits_succ] at hc
      rcases List.mem_append.mp hc with h | h
      · exact ih _ (Nat.div_lt_self (Nat.succ_pos m) (by norm_num)) c h
      · rcases List.mem_singleton.mp h with rfl
        exact digitChar_isDigit (Nat.mod_lt _ (by norm_num))

theorem natDigits_ne_nil : ∀ n, 0 < n → natReprAux n n [] ≠ [] := by
  intro n hn
  cases n with
  | zero => omega
  | succ m => rw [natDigits_succ]; simp

theorem natDigits_head_ne_zero : ∀ n, 0 < n → ∀ c cs, natReprAux n n [] = c :: cs → c ≠ '0' := by
  intro n
  induction n using Nat.strong_induction_on with
  | _ n ih =>
    cases n with
    | zero => omega
    | succ m =>
      intro _ c cs hcons
      rw [natDigits_succ] at hcons
      by_cases hq : (m + 1) / 10 = 0
      · have hm : m + 1 < 10 := by
          rcases Nat.lt_or_ge (m + 1) 10 with h | h
          · exact h
          · exact absurd hq (by have := Nat.div_le_div_right (c := 10) h; omega)
        rw [hq] at hcons
        simp [natReprAux] at hcons
        rcases hcons with ⟨rfl, -⟩
        have : (m + 1) % 10 = m + 1 := Nat.mod_eq_of_lt hm
        rw [this]
        exact digitChar_ne_zero (by omega) hm
      · obtain ⟨d, ds, hds⟩ :=
          List.exists_cons_of_ne_nil (natDigits_ne_nil ((m + 1) / 10) (by omega))
        rw [hds] at hcons
        simp at hcons
        rcases hcons with ⟨rfl, -⟩
        exact ih _ (Nat.div_lt_self (Nat.succ_pos m) (by norm_num)) (by omega) _ _ hds

end Gitflow

namespace Gitflow

theorem foldl_natDigits : ∀ n a,
    List.foldl (fun a c => a * 10 + dval c) a (natReprAux n n []) =
      a * 10 ^ (natReprAux n n []).length + n := by
  intro n
  induction n using Nat.strong_induction_on with
  | _ n ih =>
    cases n with
    | zero => intro a; simp [natReprAux]
    | succ m =>
      intro a
      have hq : (m + 1) / 10 < m + 1 := Nat.div_lt_self (Nat.succ_pos m) (by norm_num)
      have hr : (m + 1) % 10 < 10 := Nat.mod_lt _ (by norm_num)
      rw [natDigits_succ, List.foldl_append, ih _ hq a]
      simp only [List.foldl_cons, List.foldl_nil, List.length_append, List.length_singleton]
      rw [dval_digitChar hr]
      have hdm : 10 * ((m + 1) / 10) + (m + 1) % 10 = m + 1 := Nat.div_add_mod (m + 1) 10
      calc (a * 10 ^ (natReprAux ((m+1)/10) ((m+1)/10) []).length + (m + 1) / 10) * 10
            + (m + 1) % 10
          = a * (10 ^ (natReprAux ((m+1)/10) ((m+1)/10) []).length * 10)
            + (10 * ((m + 1) / 10) + (m + 1) % 10) := by ring
        _ = a * 10 ^ ((natReprAux ((m+1)/10) ((m+1)/10) []).length + 1) + (m + 1) := by
            rw [← pow_succ, hdm]

theorem digitsToNat_natRepr (n : Nat) : digitsToNat (natRepr n) = n := by
  unfold natRepr digitsToNat
  by_cases h : n = 0
  · subst h; decide
  · rw [if_neg h, foldl_natDigits n 0]; simp

theorem natRepr_ne_nil (n : Nat) : natRepr n ≠ [] := by
  unfold natRepr
  by_cases h : n = 0
  · simp [h]
  · rw [if_neg h]; exact natDigits_ne_nil n (Nat.pos_of_ne_zero h)

theorem natRepr_all_digits (n : Nat) : ∀ c ∈ natRepr n, c.isDigit = true := by
  unfold natRepr
  by_cases h : n = 0
  · simp [h]
  · rw [if_neg h]; exact natDigits_all_digits n

theorem leadingZeroB_natRepr (n : Nat) : leadingZeroB (natRepr n) = false := by
  unfold natRepr
  by_cases h : n = 0
  · simp [h, leadingZeroB]
  · rw [if_neg h]
    obtain ⟨c, cs, hcons⟩ :=
      List.exists_cons_of_ne_nil (natDigits_ne_nil n (Nat.pos_of_ne_zero h))
    have hc := natDigits_head_ne_zero n (Nat.pos_of_ne_zero h) c cs hcons
    rw [hcons]
    cases cs with
    | nil => rfl
    | cons d ds => simp [leadingZeroB, hc]

theorem preLeadingZero_natRepr (n : Nat) : preLeadingZero (natRepr n) = false := by
  simp [preLeadingZero, leadingZeroB_natRepr]

end Gitflow

namespace Gitflow

/-! ## Scanning lemmas for `takeWhile` / `dropWhile` -/

theorem takeWhile_append_all {α : Type} (p : α → Bool) (xs ys : List α)
    (h : ∀ c ∈ xs, p c = true)
    (h2 : ∀ c, ys.head? = some c → p c = false) :
    (xs ++ ys).takeWhile p = xs ∧ (xs ++ ys).dropWhile p = ys := by
  induction xs with
  | nil =>
    simp only [List.nil_append]
    cases ys with
    | nil => simp
    | cons y ys =>
      have hy := h2 y rfl
      simp [List.takeWhile_cons, List.dropWhile_cons, hy]
  | cons x xs ih =>
    have hx := h x (List.mem_cons_self x xs)
    have ih' := ih fun c hc => h c (List.mem_cons_of_mem _ hc)
    simp [List.takeWhile_cons, List.dropWhile_cons, hx, ih'.1, ih'.2]

theorem takeWhile_append_stuck {α : Type} (p : α → Bool) (xs ys : List α)
    (h : xs.dropWhile p ≠ []) :
    (xs ++ ys).takeWhile p = xs.takeWhile p ∧
      (xs ++ ys).dropWhile p = xs.dropWhile p ++ ys := by
  induction xs with
  | nil => simp at h
  | cons x xs ih =>
    by_cases hx : p x
    · have h' : xs.dropWhile p ≠ [] := by
        simpa [List.dropWhile_cons, hx] using h
      have := ih h'
      simp [List.takeWhile_cons, List.dropWhile_cons, hx, this.1, this.2]
    · simp [List.takeWhile_cons, List.dropWhile_cons, hx]

theorem head_dropWhile_false {α : Type} (p : α → Bool) :
    ∀ (xs : List α) c cs, xs.dropWhile p = c :: cs → p c = false := by
  intro xs
  induction xs with
  | nil => intro c cs h; simp at h
  | cons x xs ih =>
    intro c cs h
    by_cases hx : p x
    · rw [List.dropWhile_cons] at h; simp [hx] at h; exact ih c cs h
    · rw [List.dropWhile_cons] at h; simp [hx] at h
      rcases h with ⟨rfl, -⟩
      simpa using hx

theorem mem_of_mem_dropWhile {α : Type} (p : α → Bool) :
    ∀ (xs : List α) c, c ∈ xs.dropWhile p → c ∈ xs := by
  intro xs
  induction xs with
  | nil => intro c h; simp at h
  | cons x xs ih =>
    intro c h
    by_cases hx : p x
    · rw [List.dropWhile_cons] at h; simp [hx] at h
      exact List.mem_cons_of_mem _ (ih c h)
    · rw [List.dropWhile_cons] at h; simp [hx] at h
      rcases h with rfl | h
      · exact List.mem_cons_self c xs
      · exact List.mem_cons_of_mem _ h

theorem all_of_dropWhile_nil {α : Type} (p : α → Bool) (xs : List α)
    (h : xs.dropWhile p = []) : xs.all p = true := by
  rw [List.all_eq_true]
  intro a ha
  exact List.dropWhile_eq_nil_iff.mp h a ha

/-! ## Lemmas about `splitOnChar` -/

theorem splitOnChar_ne_nil (sep : Char) : ∀ cs, splitOnChar sep cs ≠ [] := by
  intro cs
  induction cs with
  | nil => simp [splitOnChar]
  | cons c rest ih =>
    simp only [splitOnChar]
    by_cases hc : c = sep
    · simp [hc]
    · simp only [hc, if_false]
      cases hr : splitOnChar sep rest <;> simp

theorem splitOnChar_no_sep (sep : Char) :
    ∀ cs, (∀ c ∈ cs, c ≠ sep) → splitOnChar sep cs = [cs] := by
  intro cs
  induction cs with
  | nil => intro _; rfl
  | cons c rest ih =>
    intro h
    have hc : c ≠ sep := h c (List.mem_cons_self c rest)
    have hr := ih fun d hd => h d (List.mem_cons_of_mem _ hd)
    simp only [splitOnChar, hc, if_false, hr]

theorem splitOnChar_append (sep : Char) :
    ∀ xs ys, (∀ c ∈ xs, c ≠ sep) →
      splitOnChar sep (xs ++ sep :: ys) = xs :: splitOnChar sep ys := by
  intro xs
  induction xs with
  | nil => intro ys _; simp [splitOnChar]
  | cons x xs ih =>
    intro ys h
    have hx : x ≠ sep := h x (List.mem_cons_self x xs)
    have hr := ih ys fun d hd => h d (List.mem_cons_of_mem _ hd)
    simp only [List.cons_append, splitOnChar, hx, if_false, List.append_eq, hr]

end Gitflow

namespace Gitflow

/-! ## Behaviour of the numeric-component parser on rendered numbers -/

theorem parseNum_natRepr (n : Nat) (h : n < 2 ^ 64) (rest : List Char)
    (hb : ∀ c, rest.head? = some c → c.isDigit = false) :
    parseNum (natRepr n ++ rest) = .ok (n, rest) := by
  have htw := takeWhile_append_all Char.isDigit (natRepr n) rest (natRepr_all_digits n) hb
  have hemp : (natRepr n).isEmpty = false := by
    cases hh : natRepr n with
    | nil => exact absurd hh (natRepr_ne_nil n)
    | cons c cs => rfl
  unfold parseNum
  simp only [htw.1, htw.2, hemp, leadingZeroB_natRepr n, digitsToNat_natRepr n,
    Bool.false_eq_true, if_false]
  rw [if_pos h]

theorem parseDotNum_dot (rest : List Char) : parseDotNum ('.' :: rest) = parseNum rest := rfl

theorem parseDotNum_not_dot {d : Char} (h : d ≠ '.') (tl : List Char) :
    parseDotNum (d :: tl) = .error "expected dot" := by
  unfold parseDotNum
  split
  · rename_i heq; injection heq with h1 _; exact absurd h1 h
  · rfl

theorem parsePreOpt_not_dash {d : Char} (h : d ≠ '-') (tl : List Char) :
    parsePreOpt (d :: tl) = .ok ([], d :: tl) := by
  unfold parsePreOpt
  split
  · rename_i heq; injection heq with h1 _; exact absurd h1 h
  · rfl

theorem parseBuildOpt_not_plus {d : Char} (h : d ≠ '+') (tl : List Char) :
    parseBuildOpt (d :: tl) = .ok ([], d :: tl) := by
  unfold parseBuildOpt
  split
  · rename_i heq; injection heq with h1 _; exact absurd h1 h
  · rfl

/-! ## Behaviour of the prerelease text parser on exact valid text -/

theorem parseIdentText_exact (isPre : Bool) (txt rest : List Char)
    (htxt : ∀ c ∈ txt, preDotChar c = true)
    (hrest : ∀ c, rest.head? = some c → preDotChar c = false)
    (hval : validSegs isPre (splitOnChar '.' txt) = true) :
    parseIdentText isPre (txt ++ rest) = .ok (txt, rest) := by
  have h := takeWhile_append_all preDotChar txt rest htxt hrest
  unfold parseIdentText
  rw [h.1, h.2, if_pos hval]

/-! ## `joinDots`: membership and splitting -/

theorem joinDots_chars : ∀ segs : List (List Char),
    (∀ seg ∈ segs, ∀ c ∈ seg, identChar c = true) →
    ∀ c ∈ joinDots segs, preDotChar c = true := by
  intro segs
  induction segs with
  | nil => intro _ c hc; simp [joinDots] at hc
  | cons s rest ih =>
    intro h c hc
    cases rest with
    | nil =>
      simp only [joinDots] at hc
      exact identChar_preDotChar (h s (List.mem_cons_self s []) c hc)
    | cons t ts =>
      rw [show joinDots (s :: t :: ts) = s ++ '.' :: joinDots (t :: ts) from rfl] at hc
      rcases List.mem_append.mp hc with h1 | h1
      · exact identChar_preDotChar (h s (List.mem_cons_self ..) c h1)
      · rcases List.mem_cons.mp h1 with rfl | h2
        · exact dot_preDotChar
        · exact ih (fun seg hseg => h seg (List.mem_cons_of_mem _ hseg)) c h2

theorem splitOnChar_joinDots : ∀ segs : List (List Char), segs ≠ [] →
    (∀ seg ∈ segs, ∀ c ∈ seg, c ≠ '.') →
    splitOnChar '.' (joinDots segs) = segs := by
  intro segs
  induction segs with
  | nil => intro h _; exact absurd rfl h
  | cons s rest ih =>
    intro _ h
    cases rest with
    | nil =>
      rw [show joinDots [s] = s from rfl]
      exact splitOnChar_no_sep '.' s (h s (List.mem_cons_self ..))
    | cons t ts =>
      rw [show joinDots (s :: t :: ts) = s ++ '.' :: joinDots (t :: ts) from rfl]
      rw [splitOnChar_append '.' s (joinDots (t :: ts)) (h s (List.mem_cons_self ..))]
      rw [ih (by simp) fun seg hseg => h seg (List.mem_cons_of_mem _ hseg)]

end Gitflow

namespace Gitflow

/-! ## `semverParse` on canonically rendered version text -/

theorem semverParse_base (X Y Z : Nat) (hX : X < 2 ^ 64) (hY : Y < 2 ^ 64) (hZ : Z < 2 ^ 64) :
    semverParse (natRepr X ++ '.' :: (natRepr Y ++ '.' :: natRepr Z)) =
      .ok ⟨X, Y, Z, [], []⟩ := by
  have h1 := parseNum_natRepr X hX ('.' :: (natRepr Y ++ '.' :: natRepr Z))
    (by intro c hc; simp at hc; subst hc; decide)
  have h2 := parseNum_natRepr Y hY ('.' :: natRepr Z)
    (by intro c hc; simp at hc; subst hc; decide)
  have h3 : parseNum (natRepr Z) = .ok (Z, []) := by
    have h := parseNum_natRepr Z hZ [] (by intro c hc; simp at hc)
    simpa using h
  simp only [semverParse, h1, parseDotNum_dot, h2, h3, parsePreOpt, parseBuildOpt]
  rfl

theorem semverParse_withPre (X Y Z : Nat) (hX : X < 2 ^ 64) (hY : Y < 2 ^ 64) (hZ : Z < 2 ^ 64)
    (pretxt : List Char)
    (hp : ∀ c ∈ pretxt, preDotChar c = true)
    (hval : validSegs true (splitOnChar '.' pretxt) = true) :
    semverParse (natRepr X ++ '.' :: (natRepr Y ++ '.' :: (natRepr Z ++ '-' :: pretxt))) =
      .ok ⟨X, Y, Z, pretxt, []⟩ := by
  have h1 := parseNum_natRepr X hX ('.' :: (natRepr Y ++ '.' :: (natRepr Z ++ '-' :: pretxt)))
    (by intro c hc; simp at hc; subst hc; decide)
  have h2 := parseNum_natRepr Y hY ('.' :: (natRepr Z ++ '-' :: pretxt))
    (by intro c hc; simp at hc; subst hc; decide)
  have h3 := parseNum_natRepr Z hZ ('-' :: pretxt)
    (by intro c hc; simp at hc; subst hc; decide)
  have h4 : parseIdentText true pretxt = .ok (pretxt, []) := by
    have h := parseIdentText_exact true pretxt [] hp (by intro c hc; simp at hc) hval
    simpa using h
  simp only [semverParse, h1, parseDotNum_dot, h2, h3, parsePreOpt, h4, parseBuildOpt]
  rfl

end Gitflow

namespace Gitflow

/-! ## `rustParseU8` and the `rc.{W}` prerelease text -/

theorem stripPlus_not_plus {c : Char} (h : c ≠ '+') (cs : List Char) :
    stripPlus (c :: cs) = c :: cs := by
  unfold stripPlus
  split
  · rename_i heq; injection heq with h1 _; exact absurd h1 h
  · rfl

theorem rustParseU8_natRepr (W : Nat) (hW : W ≤ 255) : rustParseU8 (natRepr W) = some W := by
  obtain ⟨c, cs, hcons⟩ := List.exists_cons_of_ne_nil (natRepr_ne_nil W)
  have hc : c.isDigit = true :=
    natRepr_all_digits W c (by rw [hcons]; exact List.mem_cons_self c cs)
  have hsp : stripPlus (natRepr W) = natRepr W := by
    rw [hcons]; exact stripPlus_not_plus (isDigit_ne_plus hc) cs
  have hall : (natRepr W).all Char.isDigit = true :=
    List.all_eq_true.mpr fun c hc => natRepr_all_digits W c hc
  unfold rustParseU8
  rw [hsp, digitsToNat_natRepr]
  exact if_pos ⟨natRepr_ne_nil W, hall, hW⟩

theorem validPreSeg_parts {seg : List Char} (h : validPreSeg seg = true) :
    seg.isEmpty = false ∧ seg.all identChar = true ∧ preLeadingZero seg = false := by
  simp only [validPreSeg, Bool.and_eq_true, Bool.not_eq_true'] at h
  exact ⟨h.1.1, h.1.2, h.2⟩

theorem natRepr_no_dot (W : Nat) : ∀ c ∈ natRepr W, c ≠ '.' :=
  fun c hc => isDigit_ne_dot (natRepr_all_digits W c hc)

theorem splitOnChar_rcText_nil (W : Nat) :
    splitOnChar '.' (rcText W []) = [['r', 'c'], natRepr W] := by
  have h : rcText W [] = ('r' :: 'c' :: []) ++ '.' :: natRepr W := by
    simp [rcText, extraTail]
  rw [h, splitOnChar_append '.' ['r', 'c'] (natRepr W) (by decide),
    splitOnChar_no_sep '.' (natRepr W) (natRepr_no_dot W)]

theorem splitOnChar_rcText_cons (W : Nat) (e : List Char) (es : List (List Char))
    (hseg : ∀ seg ∈ e :: es, validPreSeg seg = true) :
    splitOnChar '.' (rcText W (e :: es)) = ['r', 'c'] :: natRepr W :: e :: es := by
  have h : rcText W (e :: es) =
      ('r' :: 'c' :: []) ++ '.' :: (natRepr W ++ '.' :: joinDots (e :: es)) := by
    simp [rcText, extraTail]
  rw [h, splitOnChar_append '.' ['r', 'c'] _ (by decide),
    splitOnChar_append '.' (natRepr W) _ (natRepr_no_dot W),
    splitOnChar_joinDots (e :: es) (by simp)
      (fun seg hs c hc =>
        identChar_ne_dot (List.all_eq_true.mp (validPreSeg_parts (hseg seg hs)).2.1 c hc))]

theorem rcText_chars (W : Nat) (extra : List (List Char))
    (hseg : ∀ seg ∈ extra, validPreSeg seg = true) :
    ∀ c ∈ rcText W extra, preDotChar c = true := by
  intro c hc
  simp only [rcText, List.mem_cons, List.mem_append] at hc
  rcases hc with rfl | hc
  · decide
  rcases hc with rfl | hc
  · decide
  rcases hc with rfl | hc
  · decide
  rcases hc with hc | hc
  · exact identChar_preDotChar (isDigit_identChar (natRepr_all_digits W c hc))
  · unfold extraTail at hc
    cases extra with
    | nil => simp at hc
    | cons e es =>
      simp only [List.isEmpty_cons, Bool.false_eq_true, if_false, List.mem_cons] at hc
      rcases hc with rfl | hc
      · exact dot_preDotChar
      · exact joinDots_chars (e :: es)
          (fun seg hs d hd => List.all_eq_true.mp (validPreSeg_parts (hseg seg hs)).2.1 d hd)
          c hc

theorem validSegs_of (segs : List (List Char))
    (h : ∀ seg ∈ segs, seg.isEmpty = false ∧ preLeadingZero seg = false) :
    validSegs true segs = true := by
  rw [validSegs, List.all_eq_true]
  intro seg hs
  have hp := h seg hs
  simp [hp.1, hp.2]

theorem natRepr_isEmpty (W : Nat) : (natRepr W).isEmpty = false := by
  cases hh : natRepr W with
  | nil => exact absurd hh (natRepr_ne_nil W)
  | cons c cs => rfl

theorem validSegs_rcText (W : Nat) (extra : List (List Char))
    (hseg : ∀ seg ∈ extra, validPreSeg seg = true) :
    validSegs true (splitOnChar '.' (rcText W extra)) = true := by
  cases extra with
  | nil =>
    rw [splitOnChar_rcText_nil W]
    refine validSegs_of _ fun seg hs => ?_
    rcases List.mem_cons.mp hs with rfl | hs
    · exact ⟨by decide, by decide⟩
    rcases List.mem_cons.mp hs with rfl | hs
    · exact ⟨natRepr_isEmpty W, preLeadingZero_natRepr W⟩
    · simp at hs
  | cons e es =>
    rw [splitOnChar_rcText_cons W e es hseg]
    refine validSegs_of _ fun seg hs => ?_
    rcases List.mem_cons.mp hs with rfl | hs
    · exact ⟨by decide, by decide⟩
    rcases List.mem_cons.mp hs with rfl | hs
    · exact ⟨natRepr_isEmpty W, preLeadingZero_natRepr W⟩
    · have hp := validPreSeg_parts (hseg seg hs)
      exact ⟨hp.1, hp.2.2⟩

end Gitflow

namespace Gitflow

/-! ## Classification of parsed versions -/

theorem classify_production (X Y Z : Nat) (hX : X ≤ 255) (hY : Y ≤ 255) (hZ : Z ≤ 255) :
    classify_version ⟨X, Y, Z, [], []⟩ = .ok (.Production ⟨X, Y, Z⟩) := by
  unfold classify_version
  simp [Nat.not_lt.mpr hX, Nat.not_lt.mpr hY, Nat.not_lt.mpr hZ]

theorem classify_rc (X Y Z W : Nat) (hX : X ≤ 255) (hY : Y ≤ 255) (hZ : Z ≤ 255) (hW : W ≤ 255)
    (extra : List (List Char)) (hseg : ∀ seg ∈ extra, validPreSeg seg = true) :
    classify_version ⟨X, Y, Z, rcText W extra, []⟩ = .ok (.Alpha ⟨⟨X, Y, Z⟩, W⟩) := by
  have hsplit : splitOnChar '.' (rcText W extra) = ['r', 'c'] :: natRepr W ::
      (match extra with | [] => ([] : List (List Char)) | e :: es => e :: es) := by
    cases extra with
    | nil => exact splitOnChar_rcText_nil W
    | cons e es => exact splitOnChar_rcText_cons W e es hseg
  unfold classify_version
  simp only [List.isEmpty_nil, Bool.not_true, Bool.false_eq_true, if_false,
    Nat.not_lt.mpr hX, Nat.not_lt.mpr hY, Nat.not_lt.mpr hZ, if_neg (by omega : ¬ 255 < X),
    if_neg (by omega : ¬ 255 < Y), if_neg (by omega : ¬ 255 < Z)]
  rw [show (rcText W extra).isEmpty = false from rfl]
  simp only [Bool.false_eq_true, if_false, hsplit]
  cases extra with
  | nil => simp [rustParseU8_natRepr W hW]
  | cons e es => simp [rustParseU8_natRepr W hW]

/-! ## `parse_semver` on canonically displayed versions -/

theorem parse_semver_vcons (cs : List Char) :
    parse_semver ('v' :: cs) =
      (match semverParse cs with
       | .error e => .err e
       | .ok version => classify_version version) := rfl

theorem parse_semver_production (X Y Z : Nat) (hX : X ≤ 255) (hY : Y ≤ 255) (hZ : Z ≤ 255) :
    parse_semver (displayBase ⟨X, Y, Z⟩) = .ok (.Production ⟨X, Y, Z⟩) := by
  have hX64 : X < 2 ^ 64 := lt_of_le_of_lt hX (by norm_num)
  have hY64 : Y < 2 ^ 64 := lt_of_le_of_lt hY (by norm_num)
  have hZ64 : Z < 2 ^ 64 := lt_of_le_of_lt hZ (by norm_num)
  show parse_semver ('v' :: (natRepr X ++ '.' :: (natRepr Y ++ '.' :: natRepr Z))) = _
  rw [parse_semver_vcons, semverParse_base X Y Z hX64 hY64 hZ64]
  exact classify_production X Y Z hX hY hZ

theorem parse_semver_rcGeneral (X Y Z W : Nat)
    (hX : X ≤ 255) (hY : Y ≤ 255) (hZ : Z ≤ 255) (hW : W ≤ 255)
    (extra : List (List Char)) (hseg : ∀ seg ∈ extra, validPreSeg seg = true) :
    parse_semver ('v' :: (natRepr X ++ '.' :: (natRepr Y ++ '.' ::
        (natRepr Z ++ '-' :: rcText W extra)))) = .ok (.Alpha ⟨⟨X, Y, Z⟩, W⟩) := by
  have hX64 : X < 2 ^ 64 := lt_of_le_of_lt hX (by norm_num)
  have hY64 : Y < 2 ^ 64 := lt_of_le_of_lt hY (by norm_num)
  have hZ64 : Z < 2 ^ 64 := lt_of_le_of_lt hZ (by norm_num)
  rw [parse_semver_vcons, semverParse_withPre X Y Z hX64 hY64 hZ64 (rcText W extra)
    (rcText_chars W extra hseg) (validSegs_rcText W extra hseg)]
  exact classify_rc X Y Z W hX hY hZ hW extra hseg

theorem displayRC_eq_rcText (X Y Z W : Nat) :
    displayRC ⟨⟨X, Y, Z⟩, W⟩ =
      'v' :: (natRepr X ++ '.' :: (natRepr Y ++ '.' :: (natRepr Z ++ '-' :: rcText W []))) := by
  simp [displayRC, rcText, extraTail]

theorem parse_semver_displayRC (X Y Z W : Nat)
    (hX : X ≤ 255) (hY : Y ≤ 255) (hZ : Z ≤ 255) (hW : W ≤ 255) :
    parse_semver (displayRC ⟨⟨X, Y, Z⟩, W⟩) = .ok (.Alpha ⟨⟨X, Y, Z⟩, W⟩) := by
  rw [displayRC_eq_rcText]
  exact parse_semver_rcGeneral X Y Z W hX hY hZ hW [] (by intro seg hs; simp at hs)

end Gitflow

namespace Gitflow

/-! ## Failure analysis of the numeric parser -/

theorem parseNum_cases (cs : List Char) :
    (∃ e, parseNum cs = .error e) ∨
    parseNum cs = .ok (digitsToNat (cs.takeWhile Char.isDigit), cs.dropWhile Char.isDigit) := by
  unfold parseNum
  by_cases h1 : (cs.takeWhile Char.isDigit).isEmpty
  · exact Or.inl ⟨"unexpected character while parsing number", by simp [h1]⟩
  · by_cases h2 : leadingZeroB (cs.takeWhile Char.isDigit)
    · exact Or.inl ⟨"invalid leading zero", by simp [h1, h2]⟩
    · by_cases h3 : digitsToNat (cs.takeWhile Char.isDigit) < 2 ^ 64
      · have h3' : digitsToNat (cs.takeWhile Char.isDigit) < 18446744073709551616 := by
          norm_num at h3; exact h3
        exact Or.inr (by simp [h1, h2, h3'])
      · have h3' : ¬ digitsToNat (cs.takeWhile Char.isDigit) < 18446744073709551616 := by
          norm_num at h3; omega
        exact Or.inl ⟨"value exceeds u64 range", by simp [h1, h2, h3']⟩

theorem parseNum_stuck (x rest : List Char) (hns : x.all okCompChar = true)
    (hnd : x.all Char.isDigit = false) :
    (∃ e, parseNum (x ++ rest) = .error e) ∨
    (∃ n d tl, parseNum (x ++ rest) = .ok (n, d :: tl) ∧
      d.isDigit = false ∧ okCompChar d = true) := by
  have hdw : x.dropWhile Char.isDigit ≠ [] := by
    intro h0
    rw [all_of_dropWhile_nil Char.isDigit x h0] at hnd
    simp at hnd
  have htw := takeWhile_append_stuck Char.isDigit x rest hdw
  rcases parseNum_cases (x ++ rest) with h | h
  · exact Or.inl h
  · right
    obtain ⟨d, tl, hcons⟩ := List.exists_cons_of_ne_nil hdw
    rw [htw.1, htw.2, hcons] at h
    refine ⟨digitsToNat (x.takeWhile Char.isDigit), d, tl ++ rest, by simpa using h, ?_, ?_⟩
    · exact head_dropWhile_false Char.isDigit x d tl hcons
    · have hmem : d ∈ x :=
        mem_of_mem_dropWhile Char.isDigit x d (by rw [hcons]; exact List.mem_cons_self d tl)
      exact List.all_eq_true.mp hns d hmem

theorem parseNum_digits_ok (x rest : List Char) (hd : x.all Char.isDigit = true)
    (hb : ∀ c, rest.head? = some c → c.isDigit = false) :
    (∃ e, parseNum (x ++ rest) = .error e) ∨ parseNum (x ++ rest) = .ok (digitsToNat x, rest) := by
  have htw := takeWhile_append_all Char.isDigit x rest (List.all_eq_true.mp hd) hb
  rcases parseNum_cases (x ++ rest) with h | h
  · exact Or.inl h
  · right; rw [htw.1, htw.2] at h; exact h

/-! ## Error propagation through `semverParse` -/

theorem semverParse_err_num {cs : List Char} {e : String}
    (h : parseNum cs = .error e) : semverParse cs = .error e := by
  simp only [semverParse, h]

theorem semverParse_err_dot1 {cs cs1 : List Char} {n : Nat} {e : String}
    (h1 : parseNum cs = .ok (n, cs1)) (h2 : parseDotNum cs1 = .error e) :
    semverParse cs = .error e := by
  simp only [semverParse, h1, h2]

theorem semverParse_err_dot2 {cs cs1 cs3 : List Char} {n m : Nat} {e : String}
    (h1 : parseNum cs = .ok (n, cs1)) (h2 : parseDotNum cs1 = .ok (m, cs3))
    (h3 : parseDotNum cs3 = .error e) : semverParse cs = .error e := by
  simp only [semverParse, h1, h2, h3]

theorem semverParse_err_leftover {cs cs1 cs3 cs5 cs6 cs7 pre build : List Char} {n m k : Nat}
    (h1 : parseNum cs = .ok (n, cs1)) (h2 : parseDotNum cs1 = .ok (m, cs3))
    (h3 : parseDotNum cs3 = .ok (k, cs5)) (h4 : parsePreOpt cs5 = .ok (pre, cs6))
    (h5 : parseBuildOpt cs6 = .ok (build, cs7)) (h6 : cs7.isEmpty = false) :
    semverParse cs = .error "unexpected character after version" := by
  simp only [semverParse, h1, h2, h3, h4, h5, h6, Bool.false_eq_true, if_false]

end Gitflow

namespace Gitflow

/-! ## Failure of `semverParse` on non-numeric components -/

theorem okCompChar_parts {d : Char} (h : okCompChar d = true) :
    d ≠ '.' ∧ d ≠ '-' ∧ d ≠ '+' := by
  simp only [okCompChar, Bool.and_eq_true, decide_eq_true_eq] at h
  exact ⟨h.1.1, h.1.2, h.2⟩

theorem semverParse_nonnumeric (a b c : List Char) (_ha : a ≠ []) (_hb : b ≠ []) (_hc : c ≠ [])
    (hsa : a.all okCompChar = true) (hsb : b.all okCompChar = true)
    (hsc : c.all okCompChar = true)
    (hnd : ¬(a.all Char.isDigit = true ∧ b.all Char.isDigit = true ∧
      c.all Char.isDigit = true)) :
    ∃ e, semverParse (a ++ '.' :: (b ++ '.' :: c)) = .error e := by
  by_cases hA : a.all Char.isDigit = true
  case neg =>
    have hA' : a.all Char.isDigit = false := by revert hA; cases a.all Char.isDigit <;> simp
    rcases parseNum_stuck a ('.' :: (b ++ '.' :: c)) hsa hA' with ⟨e, he⟩ | ⟨n, d, tl, hok, _, hd2⟩
    · exact ⟨e, semverParse_err_num he⟩
    · exact ⟨_, semverParse_err_dot1 hok (parseDotNum_not_dot (okCompChar_parts hd2).1 tl)⟩
  case pos =>
    rcases parseNum_digits_ok a ('.' :: (b ++ '.' :: c)) hA
      (by intro x hx; simp at hx; subst hx; decide) with ⟨e, he⟩ | hok1
    · exact ⟨e, semverParse_err_num he⟩
    by_cases hB : b.all Char.isDigit = true
    case neg =>
      have hB' : b.all Char.isDigit = false := by revert hB; cases b.all Char.isDigit <;> simp
      rcases parseNum_stuck b ('.' :: c) hsb hB' with ⟨e, he⟩ | ⟨n, d, tl, hok, _, hd2⟩
      · exact ⟨e, semverParse_err_dot1 hok1 (by rw [parseDotNum_dot]; exact he)⟩
      · exact ⟨_, semverParse_err_dot2 hok1 (by rw [parseDotNum_dot]; exact hok)
          (parseDotNum_not_dot (okCompChar_parts hd2).1 tl)⟩
    case pos =>
      rcases parseNum_digits_ok b ('.' :: c) hB
        (by intro x hx; simp at hx; subst hx; decide) with ⟨e, he⟩ | hok2
      · exact ⟨e, semverParse_err_dot1 hok1 (by rw [parseDotNum_dot]; exact he)⟩
      have hC : c.all Char.isDigit = false := by
        rcases hh : c.all Char.isDigit with _ | _
        · rfl
        · exact absurd ⟨hA, hB, hh⟩ hnd
      rcases parseNum_stuck c [] hsc hC with ⟨e, he⟩ | ⟨n, d, tl, hok, _, hd2⟩
      · rw [List.append_nil] at he
        exact ⟨e, semverParse_err_dot2 hok1 (by rw [parseDotNum_dot]; exact hok2)
          (by rw [parseDotNum_dot]; exact he)⟩
      · rw [List.append_nil] at hok
        obtain ⟨hdot, hdash, hplus⟩ := okCompChar_parts hd2
        exact ⟨_, semverParse_err_leftover hok1 (by rw [parseDotNum_dot]; exact hok2)
          (by rw [parseDotNum_dot]; exact hok)
          (parsePreOpt_not_dash hdash tl) (parseBuildOpt_not_plus hplus tl) rfl⟩

/-! ## `parse_semver` error behaviour at the top level -/

theorem parse_semver_error_of_semverParse {cs : List Char} {e : String}
    (h : semverParse cs = .error e) : parse_semver ('v' :: cs) = .err e := by
  rw [parse_semver_vcons, h]

theorem parse_semver_not_v : ∀ cs : List Char, cs.head? ≠ some 'v' →
    (parse_semver cs).isErr = true := by
  intro cs h
  cases cs with
  | nil => rfl
  | cons c rest =>
    have hc : c ≠ 'v' := by intro he; subst he; exact h rfl
    unfold parse_semver
    split
    · rename_i heq; injection heq with h1 _; exact absurd h1 hc
    · rfl

end Gitflow

namespace Gitflow

/-! ## `classify_version` error behaviour -/

theorem classify_isErr_build {v : RawVersion} (h : v.build ≠ []) :
    (classify_version v).isErr = true := by
  unfold classify_version
  have hb : v.build.isEmpty = false := by
    cases hh : v.build with
    | nil => exact absurd hh h
    | cons x xs => rfl
  simp only [hb, Bool.not_false, if_true]
  rfl

theorem classify_isErr_range {v : RawVersion}
    (h : 255 < v.major ∨ 255 < v.minor ∨ 255 < v.patch) :
    (classify_version v).isErr = true := by
  unfold classify_version
  split_ifs with h1 h2 h3 h4 <;> try rfl
  · omega
  · rename_i h5
    cases hs : splitOnChar '.' v.pre with
    | nil => omega
    | cons first parts => omega

theorem classify_isErr_badPre {v : RawVersion} {first : List Char} {rest2 : List (List Char)}
    (hpre : v.pre ≠ []) (hsplit : splitOnChar '.' v.pre = first :: rest2)
    (hbad : first ≠ ['r', 'c'] ∨ rest2 = [] ∨
      ∃ second r3, rest2 = second :: r3 ∧ rustParseU8 second = none) :
    (classify_version v).isErr = true := by
  unfold classify_version
  have hp : v.pre.isEmpty = false := by
    cases hh : v.pre with
    | nil => exact absurd hh hpre
    | cons x xs => rfl
  split_ifs with h1 h2 h3 h4 h5 <;> try rfl
  case pos => simp [hp] at h5
  rw [hsplit]
  rcases hbad with hf | hrest | ⟨second, r3, hr, hu⟩
  · cases rest2 with
    | nil => rfl
    | cons second r3 =>
      simp only []
      rw [if_neg (by simpa using hf)]
      rfl
  · subst hrest; rfl
  · subst hr
    simp only []
    by_cases hfc : first = ['r', 'c']
    · simp only [hfc, if_true, hu]
      rfl
    · rw [if_neg (by simpa using hfc)]
      rfl

end Gitflow

namespace Gitflow

/-! ## The parser never panics -/

theorem classify_not_panicked (v : RawVersion) : (classify_version v).isPanicked = false := by
  unfold classify_version
  split_ifs with h1 h2 h3 h4 h5 <;> try rfl
  cases hs : splitOnChar '.' v.pre with
  | nil => exact absurd hs (splitOnChar_ne_nil '.' v.pre)
  | cons first parts =>
    cases parts with
    | nil => rfl
    | cons second r3 =>
      simp only []
      by_cases hfc : first = ['r', 'c']
      · simp only [hfc, if_true]
        cases rustParseU8 second <;> rfl
      · rw [if_neg (by simpa using hfc)]
        rfl

theorem parse_semver_no_panic (cs : List Char) : (parse_semver cs).isPanicked = false := by
  unfold parse_semver
  split
  · rename_i rest
    cases hs : semverParse rest with
    | error e => simp only [hs]; rfl
    | ok v => simp only [hs]; exact classify_not_panicked v
  · rfl

/-! ## Arity gate of `get_info_from_path` -/

theorem get_info_arity (r : RepoSnapshot)
    (h1 : r.open_result = .ok ()) (h2 : r.head_result = .ok ())
    (h3 : r.peel_result = .ok ()) (h4 : r.branches_result = .ok ()) :
    (head_branches r = [] → get_info_from_path r = .err "Commit {commit_hash} on no branch") ∧
    (1 < (head_branches r).length → get_info_from_path r = .err "Commit on too many branches!") ∧
    (∀ b, head_branches r = [b] → get_info_from_path r = finish_resolution r b) := by
  unfold get_info_from_path
  rw [h1, h2, h3, h4]
  refine ⟨?_, ?_, ?_⟩
  · intro h0; rw [h0]; rfl
  · intro hlen; rw [if_pos hlen]
  · intro b hb; rw [hb]; rfl

/-! ## The build-number counter -/

theorem count_parents_linear (n : Nat) : count_parents (linear n) = 0 := by
  induction n with
  | zero => rfl
  | succ m ih =>
    show count_parents (linear m) + count_parents_list [] = 0
    rw [ih]
    rfl

end Gitflow

namespace Gitflow

/-! # Claim theorems -/

/-- Claim C1: the spec asserts that for a strictly linear history of depth
`N` the build-number counter returns exactly `N`.  The code's
`count_parents` sums the recursive counts of all parents but never adds one
per traversed commit, so it returns `0` on every history; at the linear
history of depth `3` it returns `0`, not `3`. -/
theorem c1_count_parents_linear_depth :
    (∀ n, count_parents (linear n) = 0) ∧
    count_parents (linear 3) = 0 ∧ count_parents (linear 3) ≠ 3 := by
  refine ⟨count_parents_linear, count_parents_linear 3, ?_⟩
  rw [count_parents_linear 3]
  decide

/-- Claim C2: the spec asserts that resolution always returns a value or an
error and never panics.  On a perfectly healthy repository snapshot (open,
head, peel and branch enumeration all succeed; exactly one branch at head)
the code parses the hardcoded empty string `output` and
`unwrap_or_else(|_| panic!(...))` aborts: the model returns the `panicked`
outcome, never `ok` and never `err`. -/
theorem c2_get_info_panics_on_healthy_repo :
    get_info_from_path featureSnapshot = .panicked "failed to parse semver: " ∧
    (∀ info, get_info_from_path featureSnapshot ≠ .ok info) ∧
    (∀ e, get_info_from_path featureSnapshot ≠ .err e) := by
  refine ⟨rfl, ?_, ?_⟩
  · intro info h
    rw [show get_info_from_path featureSnapshot =
      POut.panicked "failed to parse semver: " from rfl] at h
    exact POut.noConfusion h
  · intro e h
    rw [show get_info_from_path featureSnapshot =
      POut.panicked "failed to parse semver: " from rfl] at h
    exact POut.noConfusion h

/-- Claim C3: the spec asserts that a resolution whose unique head branch is
`develop` yields `Development`, and an unrecognized branch name yields
`Local`.  The code never reaches any branch-name classification: with the
unique head branch `develop` (and likewise with the feature branch
`feature-x`) it panics while parsing the hardcoded empty string, so no
`VersionInfo` is ever produced. -/
theorem c3_resolver_never_classifies :
    get_info_from_path developSnapshot = .panicked "failed to parse semver: " ∧
    (∀ info, get_info_from_path developSnapshot ≠ .ok info) ∧
    get_info_from_path featureSnapshot = .panicked "failed to parse semver: " := by
  refine ⟨rfl, ?_, rfl⟩
  intro info h
  rw [show get_info_from_path developSnapshot =
    POut.panicked "failed to parse semver: " from rfl] at h
  exact POut.noConfusion h

/-- Claim C4 counterexample: the parser accepts `v1.0.0-rc.0` and returns an
`Alpha` value with `rc = 0`, so the claimed invariant `rc ≥ 1` is false. -/
theorem c4_counterexample_rc_zero :
    parse_semver "v1.0.0-rc.0".data = .ok (.Alpha ⟨⟨1, 0, 0⟩, 0⟩) ∧ ¬ 1 ≤ (0 : Nat) := by
  decide

/-- Claim C4 (amended): the parser enforces only the `u8` range on the rc
number: for every `W ≤ 255` — including `W = 0` — parsing
`v1.0.0-rc.{W}` yields `Alpha` with `rc = W`; no `rc ≥ 1` lower bound is
enforced anywhere. -/
theorem c4_amended_rc_range (W : Nat) (hW : W ≤ 255) :
    parse_semver (displayRC ⟨⟨1, 0, 0⟩, W⟩) = .ok (.Alpha ⟨⟨1, 0, 0⟩, W⟩) :=
  parse_semver_displayRC 1 0 0 W (by omega) (by omega) (by omega) hW

/-- Witness for the amended Claim C4 at the concrete input `W = 0`. -/
theorem c4_amended_rc_range_witness :
    parse_semver (displayRC ⟨⟨1, 0, 0⟩, 0⟩) = .ok (.Alpha ⟨⟨1, 0, 0⟩, 0⟩) :=
  c4_amended_rc_range 0 (by decide)

/-- Claim C5: for all `X, Y, Z ∈ [0,255]`, parsing the rendered string
`v{X}.{Y}.{Z}` yields `Production {X,Y,Z}` and rendering that value
(`get_semver`) reproduces the exact input; for `W ∈ [1,255]`, parsing
`v{X}.{Y}.{Z}-rc.{W}` yields `Alpha {base, rc}` and rendering round-trips. -/
theorem c5_parse_display_round_trip (X Y Z W : Nat)
    (hX : X ≤ 255) (hY : Y ≤ 255) (hZ : Z ≤ 255) (_hW1 : 1 ≤ W) (hW : W ≤ 255) :
    (parse_semver (displayBase ⟨X, Y, Z⟩) = .ok (.Production ⟨X, Y, Z⟩) ∧
      get_semver (.Production ⟨X, Y, Z⟩) = some (displayBase ⟨X, Y, Z⟩)) ∧
    (parse_semver (displayRC ⟨⟨X, Y, Z⟩, W⟩) = .ok (.Alpha ⟨⟨X, Y, Z⟩, W⟩) ∧
      get_semver (.Alpha ⟨⟨X, Y, Z⟩, W⟩) = some (displayRC ⟨⟨X, Y, Z⟩, W⟩)) :=
  ⟨⟨parse_semver_production X Y Z hX hY hZ, rfl⟩,
   ⟨parse_semver_displayRC X Y Z W hX hY hZ hW, rfl⟩⟩

/-- Witness for Claim C5 at `X = 1, Y = 13, Z = 4, W = 9`. -/
theorem c5_parse_display_round_trip_witness :
    (parse_semver (displayBase ⟨1, 13, 4⟩) = .ok (.Production ⟨1, 13, 4⟩) ∧
      get_semver (.Production ⟨1, 13, 4⟩) = some (displayBase ⟨1, 13, 4⟩)) ∧
    (parse_semver (displayRC ⟨⟨1, 13, 4⟩, 9⟩) = .ok (.Alpha ⟨⟨1, 13, 4⟩, 9⟩) ∧
      get_semver (.Alpha ⟨⟨1, 13, 4⟩, 9⟩) = some (displayRC ⟨⟨1, 13, 4⟩, 9⟩)) :=
  c5_parse_display_round_trip 1 13 4 9 (by decide) (by decide) (by decide) (by decide) (by decide)

end Gitflow

namespace Gitflow

/-- Claim C6: the parser returns an error (never a value, never a
truncated/saturated value) for: any string not starting with `v` (including
the empty string); any `v`-prefixed triple with a non-numeric component;
any successfully semver-parsed text carrying a build-metadata suffix; any
prerelease whose first dot-segment is not `rc`; a missing or
non-`u8`-parseable rc segment; and any major/minor/patch component above
255. -/
theorem c6_parse_semver_failure_cases :
    (∀ cs : List Char, cs.head? ≠ some 'v' → (parse_semver cs).isErr = true) ∧
    ((parse_semver []).isErr = true) ∧
    (∀ a b c : List Char, a ≠ [] → b ≠ [] → c ≠ [] →
      a.all okCompChar = true → b.all okCompChar = true → c.all okCompChar = true →
      ¬(a.all Char.isDigit = true ∧ b.all Char.isDigit = true ∧ c.all Char.isDigit = true) →
      (parse_semver ('v' :: (a ++ '.' :: (b ++ '.' :: c)))).isErr = true) ∧
    (∀ cs v, semverParse cs = .ok v → v.build ≠ [] →
      (parse_semver ('v' :: cs)).isErr = true) ∧
    (∀ cs v first rest2, semverParse cs = .ok v → v.pre ≠ [] →
      splitOnChar '.' v.pre = first :: rest2 → first ≠ ['r', 'c'] →
      (parse_semver ('v' :: cs)).isErr = true) ∧
    (∀ cs v first rest2, semverParse cs = .ok v → v.pre ≠ [] →
      splitOnChar '.' v.pre = first :: rest2 →
      (rest2 = [] ∨ ∃ second r3, rest2 = second :: r3 ∧ rustParseU8 second = none) →
      (parse_semver ('v' :: cs)).isErr = true) ∧
    (∀ cs v, semverParse cs = .ok v →
      (255 < v.major ∨ 255 < v.minor ∨ 255 < v.patch) →
      (parse_semver ('v' :: cs)).isErr = true) := by
  refine ⟨parse_semver_not_v, by decide, ?_, ?_, ?_, ?_, ?_⟩
  · intro a b c ha hb hc hsa hsb hsc hnd
    obtain ⟨e, he⟩ := semverParse_nonnumeric a b c ha hb hc hsa hsb hsc hnd
    rw [parse_semver_error_of_semverParse he]
    rfl
  · intro cs v h hbuild
    rw [parse_semver_vcons, h]
    exact classify_isErr_build hbuild
  · intro cs v first rest2 h hpre hsplit hfirst
    rw [parse_semver_vcons, h]
    exact classify_isErr_badPre hpre hsplit (Or.inl hfirst)
  · intro cs v first rest2 h hpre hsplit hbad
    rw [parse_semver_vcons, h]
    exact classify_isErr_badPre hpre hsplit (Or.inr hbad)
  · intro cs v h hrange
    rw [parse_semver_vcons, h]
    exact classify_isErr_range hrange

/-- Witness for Claim C6 at the spec's concrete failing inputs:
`"1.2.3"`, `""`, `"vA.B.C"`, `"v1.0.0+build5"`, `"v1.0.0-beta.1"`,
`"v1.0.0-rc.x"` and `"v256.0.0"`. -/
theorem c6_parse_semver_failure_cases_witness :
    (parse_semver "1.2.3".data).isErr = true ∧
    (parse_semver []).isErr = true ∧
    (parse_semver ('v' :: ("A".data ++ '.' :: ("B".data ++ '.' :: "C".data)))).isErr = true ∧
    (parse_semver ('v' :: "1.0.0+build5".data)).isErr = true ∧
    (parse_semver ('v' :: "1.0.0-beta.1".data)).isErr = true ∧
    (parse_semver ('v' :: "1.0.0-rc.x".data)).isErr = true ∧
    (parse_semver ('v' :: "256.0.0".data)).isErr = true := by
  refine ⟨?_, ?_, ?_, ?_, ?_, ?_, ?_⟩
  · exact c6_parse_semver_failure_cases.1 "1.2.3".data (by decide)
  · exact c6_parse_semver_failure_cases.2.1
  · exact c6_parse_semver_failure_cases.2.2.1 "A".data "B".data "C".data
      (by decide) (by decide) (by decide) (by decide) (by decide) (by decide) (by decide)
  · exact c6_parse_semver_failure_cases.2.2.2.1 "1.0.0+build5".data
      ⟨1, 0, 0, [], "build5".data⟩ (by decide) (by decide)
  · exact c6_parse_semver_failure_cases.2.2.2.2.1 "1.0.0-beta.1".data
      ⟨1, 0, 0, "beta.1".data, []⟩ "beta".data ["1".data]
      (by decide) (by decide) (by decide) (by decide)
  · exact c6_parse_semver_failure_cases.2.2.2.2.2.1 "1.0.0-rc.x".data
      ⟨1, 0, 0, "rc.x".data, []⟩ "rc".data ["x".data]
      (by decide) (by decide) (by decide)
      (Or.inr ⟨"x".data, [], by decide, by decide⟩)
  · exact c6_parse_semver_failure_cases.2.2.2.2.2.2 "256.0.0".data
      ⟨256, 0, 0, [], []⟩ (by decide) (Or.inl (by decide))

/-- Claim C7: whenever repository access succeeds, resolution fails with
the no-branch error when zero branches tip at head, fails with the
ambiguity error when more than one does, and proceeds to select the branch
(continuing with `finish_resolution`) exactly when a single branch tips at
head. -/
theorem c7_resolution_branch_arity (r : RepoSnapshot)
    (h1 : r.open_result = .ok ()) (h2 : r.head_result = .ok ())
    (h3 : r.peel_result = .ok ()) (h4 : r.branches_result = .ok ()) :
    (head_branches r = [] → get_info_from_path r = .err "Commit {commit_hash} on no branch") ∧
    (1 < (head_branches r).length →
      get_info_from_path r = .err "Commit on too many branches!") ∧
    (∀ b, head_branches r = [b] → get_info_from_path r = finish_resolution r b) :=
  get_info_arity r h1 h2 h3 h4

/-- Witness for Claim C7 at three concrete snapshots: zero, two, and
exactly one branch at head. -/
theorem c7_resolution_branch_arity_witness :
    get_info_from_path noBranchSnapshot = .err "Commit {commit_hash} on no branch" ∧
    get_info_from_path ambiguousSnapshot = .err "Commit on too many branches!" ∧
    get_info_from_path mainSnapshot = finish_resolution mainSnapshot mainBranch :=
  ⟨(c7_resolution_branch_arity noBranchSnapshot rfl rfl rfl rfl).1 rfl,
   (c7_resolution_branch_arity ambiguousSnapshot rfl rfl rfl rfl).2.1 (by decide),
   (c7_resolution_branch_arity mainSnapshot rfl rfl rfl rfl).2.2 mainBranch rfl⟩

/-- Claim C8: `get_semver` returns a string exactly for `Production` and
`Alpha` and `none` exactly for `Development` and `Local`; `is_production`
and `is_alpha` each characterize exactly their own variant and are never
both true. -/
theorem c8_get_semver_accessors (v : VersionInfo) :
    ((∃ s, get_semver v = some s) ↔ ((∃ b, v = .Production b) ∨ ∃ a, v = .Alpha a)) ∧
    (get_semver v = none ↔ (v = .Development ∨ v = .Local)) ∧
    (is_production v = true ↔ ∃ b, v = .Production b) ∧
    (is_alpha v = true ↔ ∃ a, v = .Alpha a) ∧
    ¬(is_production v = true ∧ is_alpha v = true) := by
  cases v <;> refine ⟨?_, ?_, ?_, ?_, ?_⟩ <;>
    first
      | decide
      | simp [get_semver, is_production, is_alpha]

/-- Claim C9: for components in range and any non-empty list of additional
grammar-valid prerelease segments after `rc.{W}`, the parser still succeeds
and returns `Alpha {base, rc = W}`, silently ignoring the extra segments. -/
theorem c9_extra_prerelease_segments (X Y Z W : Nat) (extra : List (List Char))
    (hX : X ≤ 255) (hY : Y ≤ 255) (hZ : Z ≤ 255) (hW : W ≤ 255)
    (hne : extra ≠ []) (hseg : ∀ seg ∈ extra, validPreSeg seg = true) :
    parse_semver ('v' :: (natRepr X ++ '.' :: (natRepr Y ++ '.' :: (natRepr Z ++ '-' ::
      ('r' :: 'c' :: '.' :: (natRepr W ++ '.' :: joinDots extra)))))) =
      .ok (.Alpha ⟨⟨X, Y, Z⟩, W⟩) := by
  have h : ('r' :: 'c' :: '.' :: (natRepr W ++ '.' :: joinDots extra)) = rcText W extra := by
    cases extra with
    | nil => exact absurd rfl hne
    | cons e es => simp [rcText, extraTail]
  rw [h]
  exact parse_semver_rcGeneral X Y Z W hX hY hZ hW extra hseg

/-- Witness for Claim C9 at `v1.0.0-rc.1.junk.7`. -/
theorem c9_extra_prerelease_segments_witness :
    parse_semver ('v' :: (natRepr 1 ++ '.' :: (natRepr 0 ++ '.' :: (natRepr 0 ++ '-' ::
      ('r' :: 'c' :: '.' :: (natRepr 1 ++ '.' ::
        joinDots [['j', 'u', 'n', 'k'], ['7']])))))) =
      .ok (.Alpha ⟨⟨1, 0, 0⟩, 1⟩) :=
  c9_extra_prerelease_segments 1 0 0 1 [['j', 'u', 'n', 'k'], ['7']]
    (by decide) (by decide) (by decide) (by decide) (by decide) (by decide)

/-- Claim C10: the semver parser is total and never panics: on every input
it returns `ok` or `err`, never the `panicked` outcome — in particular the
`unwrap` on the first piece of `pre.split('.')` is unreachable, because
splitting always yields at least one piece (`splitOnChar` never returns the
empty list). -/
theorem c10_parse_semver_never_panics (cs : List Char) :
    (parse_semver cs).isPanicked = false ∧
    ((∃ v, parse_semver cs = .ok v) ∨ (∃ e, parse_semver cs = .err e)) := by
  refine ⟨parse_semver_no_panic cs, ?_⟩
  cases h : parse_semver cs with
  | ok v => exact Or.inl ⟨v, rfl⟩
  | err e => exact Or.inr ⟨e, rfl⟩
  | panicked p =>
    have hnp := parse_semver_no_panic cs
    rw [h] at hnp
    simp [POut.isPanicked] at hnp

end Gitflow
